import Mathlib

/-! Shallow embedding of the NOrec software transactional memory engine
from norec_cgrundey_umap.cpp.

The five operations tx_begin, tx_abort, tx_read, tx_write and tx_commit act
on one thread.  The state record collects the shared cell array accts, the
shared counter global_clock, and the thread-local read_set, write_set and
start version rv.  Unbounded while-loops of the C++ code take explicit
fuel: a result of none means the fuel ran out, and a property holding for
every fuel value means the loop runs forever.  The C++ exception thrown by
tx_abort is modelled as an Except.error carrying the state at the throw
(the shared memory as the aborting thread leaves it). -/

/-- One cell as stored in the read set: the C++ struct Acct. -/
structure Acct where
  addr : Nat
  value : Int
deriving DecidableEq

/-- The memory visible to one thread: shared accts and global_clock plus
the thread-local read_set, write_set and rv. -/
structure STMState where
  accts : List Int
  read_set : List Acct
  write_set : List (Nat × Int)
  rv : Nat
  global_clock : Nat
deriving DecidableEq

/-- Lookup in the write set, modelling the range-for over the
unordered_map in tx_read: keys are unique, the first hit is returned. -/
def wsLookup : List (Nat × Int) → Nat → Option Int
  | [], _ => none
  | (a, v) :: rest, addr => if a = addr then some v else wsLookup rest addr

/-- The call write_set.emplace(addr, val): unordered_map emplace inserts
only when the key is absent and otherwise leaves the map unchanged. -/
def wsEmplace (ws : List (Nat × Int)) (addr : Nat) (v : Int) : List (Nat × Int) :=
  match wsLookup ws addr with
  | some _ => ws
  | none => (addr, v) :: ws

/-- tx_write(addr, val): write_set.emplace(addr, val); purely local. -/
def tx_write (s : STMState) (addr : Nat) (val : Int) : STMState :=
  { s with write_set := wsEmplace s.write_set addr val }

/-- The for-loop of tx_validate over the read set.  For each entry it
first compares the recorded value with the current cell value and calls
tx_abort on mismatch, then compares temp with global_clock and returns
temp when they agree; otherwise it moves to the next entry.  A result of
none means the loop fell through without returning. -/
def scanRS (accts : List Int) (clock temp : Nat) : List Acct → Option (Except Unit Nat)
  | [] => none
  | e :: rest =>
    if e.value ≠ accts.getD e.addr 0 then some (Except.error ())
    else if temp = clock then some (Except.ok temp)
    else scanRS accts clock temp rest

/-- tx_validate: while(1) read temp from global_clock, retry while temp is
odd, then run the read-set scan; if the scan falls through, loop again. -/
def tx_validateFuel : Nat → STMState → Option (Except Unit Nat)
  | 0, _ => none
  | f + 1, s =>
    if s.global_clock % 2 = 1 then tx_validateFuel f s
    else
      match scanRS s.accts s.global_clock s.global_clock s.read_set with
      | some r => some r
      | none => tx_validateFuel f s

/-- The while-loop of tx_read: while rv differs from global_clock, set rv
to the result of tx_validate and re-read the cell; on exit push the entry
onto the read set and return the value. -/
def tx_readLoopFuel : Nat → STMState → Nat → Int → Option (Except STMState (Int × STMState))
  | 0, _, _, _ => none
  | f + 1, s, addr, val =>
    if s.rv ≠ s.global_clock then
      match tx_validateFuel f s with
      | none => none
      | some (Except.error _) => some (Except.error s)
      | some (Except.ok t) =>
        tx_readLoopFuel f { s with rv := t } addr (({ s with rv := t } : STMState).accts.getD addr 0)
    else
      some (Except.ok (val, { s with read_set := s.read_set ++ [⟨addr, val⟩] }))

/-- tx_read(addr): return the buffered value on a write-set hit, else read
the cell and run the revalidation loop. -/
def tx_readFuel (f : Nat) (s : STMState) (addr : Nat) :
    Option (Except STMState (Int × STMState)) :=
  match wsLookup s.write_set addr with
  | some v => some (Except.ok (v, s))
  | none => tx_readLoopFuel f s addr (s.accts.getD addr 0)

/-- tx_begin: clear both sets, then do rv = global_clock while rv is odd. -/
def tx_beginFuel : Nat → STMState → Option STMState
  | 0, _ => none
  | f + 1, s =>
    if s.global_clock % 2 = 1 then
      tx_beginFuel f { s with read_set := [], write_set := [], rv := s.global_clock }
    else some { s with read_set := [], write_set := [], rv := s.global_clock }

/-- The write-back for-loop of tx_commit: accts[x.first].value = x.second
for every pair of the write set. -/
def writeBack (accts : List Int) : List (Nat × Int) → List Int
  | [] => accts
  | (a, v) :: rest => writeBack (accts.set a v) rest

/-- tx_commit: return at once on an empty write set; otherwise loop a CAS
of global_clock from rv to rv + 1, refreshing rv through tx_validate on
each failure; after CAS success write back the write set and store
rv + 2 into global_clock.  Sequentially the CAS succeeds exactly when
global_clock equals rv. -/
def tx_commitFuel : Nat → STMState → Option (Except STMState STMState)
  | 0, _ => none
  | f + 1, s =>
    if s.write_set = [] then some (Except.ok s)
    else if s.global_clock = s.rv then
      some (Except.ok
        (let s1 := { s with global_clock := s.rv + 1 }
         let s2 := { s1 with accts := writeBack s1.accts s1.write_set }
         { s2 with global_clock := s2.rv + 2 }))
    else
      match tx_validateFuel f s with
      | none => none
      | some (Except.error _) => some (Except.error s)
      | some (Except.ok t) => tx_commitFuel f { s with rv := t }

/-- One transfer transaction as the th_run driver issues it: begin, read
the source, commit at once when the balance is below the amount, else read
the target, buffer the two updated balances and commit. -/
def transferTx (f : Nat) (s : STMState) (r1 r2 : Nat) (amt : Int) :
    Option (Except STMState STMState) :=
  match tx_beginFuel f s with
  | none => none
  | some s0 =>
    match tx_readFuel f s0 r1 with
    | none => none
    | some (Except.error sa) => some (Except.error sa)
    | some (Except.ok (a1, s1)) =>
      if a1 < amt then tx_commitFuel f s1
      else
        match tx_readFuel f s1 r2 with
        | none => none
        | some (Except.error sa) => some (Except.error sa)
        | some (Except.ok (a2, s2)) =>
          tx_commitFuel f (tx_write (tx_write s2 r1 (a1 - amt)) r2 (a2 + amt))

/-- A sequence of transfer transactions; an aborted attempt leaves the
shared memory as it was and the run moves on. -/
def runTransfers (f : Nat) (amt : Int) : STMState → List (Nat × Nat) → Option STMState
  | s, [] => some s
  | s, (r1, r2) :: rest =>
    match transferTx f s r1 r2 amt with
    | none => none
    | some (Except.error _) => runTransfers f amt s rest
    | some (Except.ok s1) => runTransfers f amt s1 rest

/-! Concrete states used to evaluate the operations at specific inputs. -/

/-- One cell with balance 0, at the start of a fresh transaction. -/
def sC1 : STMState := ⟨[0], [], [], 0, 0⟩

/-- Two cells where the second read-set entry no longer matches memory:
cell 1 holds 999 while the read set recorded 7 for it. -/
def sC2 : STMState := ⟨[5, 999], [⟨0, 5⟩, ⟨1, 7⟩], [], 0, 0⟩

/-- Two accounts of 100 each before a transfer of 50. -/
def sC3 : STMState := ⟨[100, 100], [], [], 0, 0⟩

/-- The state after the committed transfer of 50 from cell 0 to cell 1
starting at sC3. -/
def sC3x : STMState := ⟨[50, 150], [⟨0, 100⟩, ⟨1, 100⟩], [(1, 150), (0, 50)], 0, 2⟩

/-- A writing transaction ready to commit at clock 0. -/
def sC4 : STMState := ⟨[1, 2], [], [(0, 5)], 0, 0⟩

/-- The state after the successful commit from sC4. -/
def sC4x : STMState := ⟨[5, 2], [], [(0, 5)], 0, 2⟩

/-- Empty read set while rv is stale: tx_read spins forever here. -/
def sDiv : STMState := ⟨[5], [], [], 2, 0⟩

/-- A stale writing transaction whose single read-set entry mismatches
memory, so its commit aborts. -/
def sC6 : STMState := ⟨[9], [⟨0, 5⟩], [(0, 1)], 4, 0⟩

/-- A read-only transaction about to commit. -/
def sC7 : STMState := ⟨[3, 4], [⟨0, 3⟩], [], 0, 0⟩

/-- A state whose head read-set entry mismatches memory at an even clock. -/
def sC8 : STMState := ⟨[9], [⟨0, 5⟩], [], 0, 0⟩

/-- Empty read set and stale rv, but address 0 sits in the write set. -/
def sC9 : STMState := ⟨[5], [], [(0, 7)], 2, 0⟩

/-- A quiescent state in which tx_begin starts a transaction. -/
def sC10 : STMState := ⟨[5], [], [], 7, 2⟩

/-- The state tx_begin produces from sC10. -/
def sC10b : STMState := ⟨[5], [], [], 2, 2⟩

/-! Helper lemmas about the embedded operations. -/

lemma scanRS_cons (accts : List Int) (c : Nat) (e : Acct) (rest : List Acct) :
    scanRS accts c c (e :: rest) =
      if e.value ≠ accts.getD e.addr 0 then some (Except.error ())
      else some (Except.ok c) := by
  simp [scanRS]

lemma validate_ok_eq (f : Nat) (s : STMState) (t : Nat)
    (h : tx_validateFuel f s = some (Except.ok t)) :
    t = s.global_clock ∧ s.global_clock % 2 = 0 := by
  induction f with
  | zero => simp [tx_validateFuel] at h
  | succ f ih =>
    simp only [tx_validateFuel] at h
    by_cases hodd : s.global_clock % 2 = 1
    · rw [if_pos hodd] at h
      exact ih h
    · rw [if_neg hodd] at h
      have heven : s.global_clock % 2 = 0 :=
        (Nat.mod_two_eq_zero_or_one s.global_clock).resolve_right hodd
      cases hrs : s.read_set with
      | nil =>
        rw [hrs] at h
        simp only [scanRS] at h
        exact ih h
      | cons e rest =>
        rw [hrs, scanRS_cons] at h
        by_cases hm : e.value ≠ s.accts.getD e.addr 0
        · rw [if_pos hm] at h
          simp at h
        · rw [if_neg hm] at h
          simp at h
          exact ⟨h.symm, heven⟩

lemma validate_err_cond (f : Nat) (s : STMState) (u : Unit)
    (h : tx_validateFuel f s = some (Except.error u)) :
    s.global_clock % 2 = 0 ∧
      ∃ e rest, s.read_set = e :: rest ∧ e.value ≠ s.accts.getD e.addr 0 := by
  induction f with
  | zero => simp [tx_validateFuel] at h
  | succ f ih =>
    simp only [tx_validateFuel] at h
    by_cases hodd : s.global_clock % 2 = 1
    · rw [if_pos hodd] at h
      exact ih h
    · rw [if_neg hodd] at h
      have heven : s.global_clock % 2 = 0 :=
        (Nat.mod_two_eq_zero_or_one s.global_clock).resolve_right hodd
      cases hrs : s.read_set with
      | nil =>
        rw [hrs] at h
        simp only [scanRS] at h
        simpa [hrs] using ih h
      | cons e rest =>
        rw [hrs, scanRS_cons] at h
        by_cases hm : e.value ≠ s.accts.getD e.addr 0
        · exact ⟨heven, e, rest, rfl, hm⟩
        · rw [if_neg hm] at h
          simp at h

lemma validate_err_intro (f : Nat) (s : STMState) (e : Acct) (rest : List Acct)
    (hrs : s.read_set = e :: rest) (heven : s.global_clock % 2 = 0)
    (hm : e.value ≠ s.accts.getD e.addr 0) (hf : 0 < f) :
    tx_validateFuel f s = some (Except.error ()) := by
  cases f with
  | zero => exact absurd hf (by simp)
  | succ f =>
    have hodd : ¬ s.global_clock % 2 = 1 := by omega
    simp only [tx_validateFuel, if_neg hodd, hrs, scanRS_cons, if_pos hm]

lemma validate_empty (f : Nat) (s : STMState) (hrs : s.read_set = []) :
    tx_validateFuel f s = none := by
  induction f with
  | zero => rfl
  | succ f ih =>
    simp only [tx_validateFuel, hrs, scanRS]
    split
    · exact ih
    · exact ih

lemma begin_eq (f : Nat) (s s' : STMState) (h : tx_beginFuel f s = some s') :
    s' = { s with read_set := [], write_set := [], rv := s.global_clock } ∧
      s.global_clock % 2 = 0 := by
  induction f generalizing s with
  | zero => simp [tx_beginFuel] at h
  | succ f ih =>
    simp only [tx_beginFuel] at h
    by_cases hodd : s.global_clock % 2 = 1
    · rw [if_pos hodd] at h
      obtain ⟨_, h2⟩ := ih _ h
      simp at h2
      omega
    · rw [if_neg hodd] at h
      have heven : s.global_clock % 2 = 0 :=
        (Nat.mod_two_eq_zero_or_one s.global_clock).resolve_right hodd
      exact ⟨(Option.some.inj h).symm, heven⟩

lemma readLoop_ok (f : Nat) (s : STMState) (addr : Nat) (val v : Int) (t : STMState)
    (h : tx_readLoopFuel f s addr val = some (Except.ok (v, t))) :
    t.accts = s.accts ∧ t.global_clock = s.global_clock ∧
      t.write_set = s.write_set ∧ (t.rv = s.rv ∨ t.rv % 2 = 0) ∧
      t.read_set = s.read_set ++ [⟨addr, v⟩] ∧
      (val = s.accts.getD addr 0 → v = s.accts.getD addr 0) := by
  induction f generalizing s val with
  | zero => simp [tx_readLoopFuel] at h
  | succ f ih =>
    simp only [tx_readLoopFuel] at h
    by_cases hrv : s.rv ≠ s.global_clock
    · rw [if_pos hrv] at h
      cases hv : tx_validateFuel f s with
      | none => rw [hv] at h; simp at h
      | some r =>
        cases r with
        | error u => rw [hv] at h; simp at h
        | ok tt =>
          rw [hv] at h
          obtain ⟨htt, heven⟩ := validate_ok_eq f s tt hv
          obtain ⟨ha, hc, hw, hr, hrs, hval⟩ := ih _ _ h
          refine ⟨ha, hc, hw, Or.inr ?_, hrs, fun _ => ?_⟩
          · rcases hr with hr | hr
            · rw [hr]
              simpa [htt] using heven
            · exact hr
          · exact hval rfl
    · rw [if_neg hrv] at h
      simp only [Option.some.injEq, Except.ok.injEq, Prod.mk.injEq] at h
      obtain ⟨hv', ht⟩ := h
      subst hv'
      rw [← ht]
      exact ⟨rfl, rfl, rfl, Or.inl rfl, rfl, fun hh => hh⟩

lemma readLoop_err (f : Nat) (s : STMState) (addr : Nat) (val : Int) (t : STMState)
    (h : tx_readLoopFuel f s addr val = some (Except.error t)) :
    t.accts = s.accts ∧ s.global_clock % 2 = 0 ∧
      ∃ e rest, s.read_set = e :: rest ∧ e.value ≠ s.accts.getD e.addr 0 := by
  induction f generalizing s val with
  | zero => simp [tx_readLoopFuel] at h
  | succ f ih =>
    simp only [tx_readLoopFuel] at h
    by_cases hrv : s.rv ≠ s.global_clock
    · rw [if_pos hrv] at h
      cases hv : tx_validateFuel f s with
      | none => rw [hv] at h; simp at h
      | some r =>
        cases r with
        | error u =>
          rw [hv] at h
          simp only [Option.some.injEq, Except.error.injEq] at h
          obtain ⟨heven, hcond⟩ := validate_err_cond f s u hv
          exact ⟨by rw [← h], heven, hcond⟩
        | ok tt =>
          rw [hv] at h
          obtain ⟨ha, hb, hc⟩ := ih { s with rv := tt } _ h
          exact ⟨ha, hb, hc⟩
    · rw [if_neg hrv] at h
      simp at h

lemma read_ok_facts (f : Nat) (s : STMState) (addr : Nat) (v : Int) (t : STMState)
    (h : tx_readFuel f s addr = some (Except.ok (v, t))) :
    t.accts = s.accts ∧ t.global_clock = s.global_clock ∧
      t.write_set = s.write_set ∧ (t.rv = s.rv ∨ t.rv % 2 = 0) ∧
      (wsLookup s.write_set addr = none →
        v = s.accts.getD addr 0 ∧ t.read_set = s.read_set ++ [⟨addr, v⟩]) := by
  unfold tx_readFuel at h
  cases hws : wsLookup s.write_set addr with
  | some w =>
    rw [hws] at h
    simp only [Option.some.injEq, Except.ok.injEq, Prod.mk.injEq] at h
    rw [← h.2]
    exact ⟨rfl, rfl, rfl, Or.inl rfl, fun hc => Option.noConfusion hc⟩
  | none =>
    rw [hws] at h
    obtain ⟨ha, hc, hw, hr, hrs, hval⟩ := readLoop_ok f s addr _ v t h
    exact ⟨ha, hc, hw, hr, fun _ => ⟨hval rfl, by rw [hrs, hval rfl]⟩⟩

lemma read_err_facts (f : Nat) (s : STMState) (addr : Nat) (t : STMState)
    (h : tx_readFuel f s addr = some (Except.error t)) :
    t.accts = s.accts ∧ s.global_clock % 2 = 0 ∧
      ∃ e rest, s.read_set = e :: rest ∧ e.value ≠ s.accts.getD e.addr 0 := by
  unfold tx_readFuel at h
  cases hws : wsLookup s.write_set addr with
  | some w => rw [hws] at h; simp at h
  | none =>
    rw [hws] at h
    exact readLoop_err f s addr _ t h

lemma commit_ok_nonempty (f : Nat) (s t : STMState)
    (hne : s.write_set ≠ []) (h : tx_commitFuel f s = some (Except.ok t)) :
    t.accts = writeBack s.accts s.write_set ∧ t.rv = s.global_clock ∧
      t.global_clock = s.global_clock + 2 ∧ t.read_set = s.read_set ∧
      t.write_set = s.write_set := by
  induction f generalizing s with
  | zero => simp [tx_commitFuel] at h
  | succ f ih =>
    simp only [tx_commitFuel] at h
    rw [if_neg hne] at h
    by_cases hcas : s.global_clock = s.rv
    · rw [if_pos hcas] at h
      simp only [Option.some.injEq, Except.ok.injEq] at h
      rw [← h]
      exact ⟨rfl, hcas.symm, by simp [hcas], rfl, rfl⟩
    · rw [if_neg hcas] at h
      cases hv : tx_validateFuel f s with
      | none => rw [hv] at h; simp at h
      | some r =>
        cases r with
        | error u => rw [hv] at h; simp at h
        | ok tt =>
          rw [hv] at h
          obtain ⟨htt, _⟩ := validate_ok_eq f s tt hv
          obtain ⟨ha, hr, hc, hrs, hw⟩ := ih { s with rv := tt } hne h
          exact ⟨ha, by simpa [htt] using hr, hc, hrs, hw⟩

lemma commit_empty_eq (f : Nat) (s : STMState) (r : Except STMState STMState)
    (he : s.write_set = []) (h : tx_commitFuel f s = some r) :
    r = Except.ok s := by
  cases f with
  | zero => simp [tx_commitFuel] at h
  | succ f =>
    simp only [tx_commitFuel, if_pos he] at h
    exact (Option.some.inj h).symm

lemma commit_err_cond (f : Nat) (s t : STMState)
    (h : tx_commitFuel f s = some (Except.error t)) :
    t.accts = s.accts ∧ t.global_clock = s.global_clock ∧
      s.global_clock % 2 = 0 ∧
      ∃ e rest, s.read_set = e :: rest ∧ e.value ≠ s.accts.getD e.addr 0 := by
  induction f generalizing s with
  | zero => simp [tx_commitFuel] at h
  | succ f ih =>
    simp only [tx_commitFuel] at h
    by_cases he : s.write_set = []
    · rw [if_pos he] at h
      simp at h
    · rw [if_neg he] at h
      by_cases hcas : s.global_clock = s.rv
      · rw [if_pos hcas] at h
        simp at h
      · rw [if_neg hcas] at h
        cases hv : tx_validateFuel f s with
        | none => rw [hv] at h; simp at h
        | some r =>
          cases r with
          | error u =>
            rw [hv] at h
            simp only [Option.some.injEq, Except.error.injEq] at h
            obtain ⟨heven, hcond⟩ := validate_err_cond f s u hv
            exact ⟨by rw [← h], by rw [← h], heven, hcond⟩
          | ok tt =>
            rw [hv] at h
            obtain ⟨ha, hc, hb, hd⟩ := ih { s with rv := tt } h
            exact ⟨ha, hc, hb, hd⟩

lemma getD_set_ne (l : List Int) (i j : Nat) (x : Int) (hij : i ≠ j) :
    (l.set i x).getD j 0 = l.getD j 0 := by
  induction l generalizing i j with
  | nil => simp [List.set]
  | cons hd tl ih =>
    cases i with
    | zero =>
      cases j with
      | zero => exact absurd rfl hij
      | succ j => simp [List.set]
    | succ i =>
      cases j with
      | zero => simp [List.set]
      | succ j =>
        simp only [List.set, List.getD_cons_succ]
        exact ih i j (fun hh => hij (by rw [hh]))

lemma sum_set_int (l : List Int) (i : Nat) (x : Int) (h : i < l.length) :
    (l.set i x).sum = l.sum - l.getD i 0 + x := by
  induction l generalizing i with
  | nil => simp at h
  | cons hd tl ih =>
    cases i with
    | zero =>
      simp only [List.set, List.sum_cons, List.getD_cons_zero]
      ring
    | succ i =>
      simp only [List.set, List.sum_cons, List.getD_cons_succ]
      rw [ih i (by simpa using h)]
      ring

lemma writeBack_length (accts : List Int) (ws : List (Nat × Int)) :
    (writeBack accts ws).length = accts.length := by
  induction ws generalizing accts with
  | nil => rfl
  | cons p rest ih =>
    obtain ⟨a, v⟩ := p
    simp only [writeBack]
    rw [ih, List.length_set]

lemma transfer_sum (l : List Int) (r1 r2 : Nat) (amt : Int)
    (h1 : r1 < l.length) (h2 : r2 < l.length) (hne : r1 ≠ r2) :
    (writeBack l [(r2, l.getD r2 0 + amt), (r1, l.getD r1 0 - amt)]).sum = l.sum := by
  simp only [writeBack]
  rw [sum_set_int _ r1 _ (by rw [List.length_set]; exact h1)]
  rw [getD_set_ne l r2 r1 _ (fun hh => hne hh.symm)]
  rw [sum_set_int l r2 _ h2]
  ring

lemma transferTx_ok_sum (f : Nat) (s t : STMState) (r1 r2 : Nat) (amt : Int)
    (hne : r1 ≠ r2) (h1 : r1 < s.accts.length) (h2 : r2 < s.accts.length)
    (h : transferTx f s r1 r2 amt = some (Except.ok t)) :
    t.accts.sum = s.accts.sum ∧ t.accts.length = s.accts.length := by
  unfold transferTx at h
  cases hb : tx_beginFuel f s with
  | none => simp [hb] at h
  | some s0 =>
    simp only [hb] at h
    obtain ⟨hs0, _⟩ := begin_eq f s s0 hb
    have hs0a : s0.accts = s.accts := by rw [hs0]
    have hs0w : s0.write_set = [] := by rw [hs0]
    cases hr1 : tx_readFuel f s0 r1 with
    | none => simp [hr1] at h
    | some r =>
      cases r with
      | error sa => simp [hr1] at h
      | ok p =>
        obtain ⟨a1, s1⟩ := p
        simp only [hr1] at h
        obtain ⟨h1a, _, h1w, _, h1cond⟩ := read_ok_facts f s0 r1 a1 s1 hr1
        have hmiss1 : wsLookup s0.write_set r1 = none := by rw [hs0w]; rfl
        obtain ⟨ha1, _⟩ := h1cond hmiss1
        by_cases hlt : a1 < amt
        · rw [if_pos hlt] at h
          have hr := commit_empty_eq f s1 _ (by rw [h1w, hs0w]) h
          have ht : t = s1 := Except.ok.inj hr
          rw [ht, h1a, hs0a]
          exact ⟨rfl, rfl⟩
        · rw [if_neg hlt] at h
          cases hr2 : tx_readFuel f s1 r2 with
          | none => simp [hr2] at h
          | some r' =>
            cases r' with
            | error sa => simp [hr2] at h
            | ok p' =>
              obtain ⟨a2, s2⟩ := p'
              simp only [hr2] at h
              obtain ⟨h2a, _, h2w, _, h2cond⟩ := read_ok_facts f s1 r2 a2 s2 hr2
              have hmiss2 : wsLookup s1.write_set r2 = none := by
                rw [h1w, hs0w]; rfl
              obtain ⟨ha2, _⟩ := h2cond hmiss2
              have hs2a : s2.accts = s.accts := by rw [h2a, h1a, hs0a]
              have hs2w : s2.write_set = [] := by rw [h2w, h1w, hs0w]
              set s4 := tx_write (tx_write s2 r1 (a1 - amt)) r2 (a2 + amt) with hs4
              have hs4a : s4.accts = s.accts := by
                rw [hs4]
                simpa [tx_write] using hs2a
              have hs4w : s4.write_set = [(r2, a2 + amt), (r1, a1 - amt)] := by
                rw [hs4]
                simp only [tx_write, hs2w, wsEmplace, wsLookup]
                rw [if_neg (fun hh => hne hh)]
              obtain ⟨hta, _, _, _, _⟩ :=
                commit_ok_nonempty f s4 t (by rw [hs4w]; simp) h
              have hval1 : a1 = s.accts.getD r1 0 := by
                rw [ha1, hs0a]
              have hval2 : a2 = s.accts.getD r2 0 := by
                rw [ha2, h1a, hs0a]
              constructor
              · rw [hta, hs4a, hs4w, hval1, hval2]
                exact transfer_sum s.accts r1 r2 amt h1 h2 hne
              · rw [hta, writeBack_length, hs4a]

lemma runTransfers_sum (f : Nat) (amt : Int) (ps : List (Nat × Nat)) (s s' : STMState)
    (hv : ∀ p ∈ ps, p.1 ≠ p.2 ∧ p.1 < s.accts.length ∧ p.2 < s.accts.length)
    (h : runTransfers f amt s ps = some s') :
    s'.accts.sum = s.accts.sum ∧ s'.accts.length = s.accts.length := by
  induction ps generalizing s with
  | nil =>
    simp only [runTransfers] at h
    rw [← Option.some.inj h]
    exact ⟨rfl, rfl⟩
  | cons p rest ih =>
    obtain ⟨r1, r2⟩ := p
    simp only [runTransfers] at h
    cases htx : transferTx f s r1 r2 amt with
    | none => simp [htx] at h
    | some r =>
      cases r with
      | error sa =>
        simp only [htx] at h
        exact ih s (fun q hq => hv q (List.mem_cons_of_mem _ hq)) h
      | ok s1 =>
        simp only [htx] at h
        obtain ⟨hd1, hd2, hd3⟩ := hv (r1, r2) (List.mem_cons_self _ _)
        obtain ⟨hsum, hlen⟩ := transferTx_ok_sum f s s1 r1 r2 amt hd1 hd2 hd3 htx
        obtain ⟨hsum2, hlen2⟩ := ih s1 (fun q hq => by
          obtain ⟨hq1, hq2, hq3⟩ := hv q (List.mem_cons_of_mem _ hq)
          exact ⟨hq1, by rw [hlen]; exact hq2, by rw [hlen]; exact hq3⟩) h
        exact ⟨hsum2.trans hsum, hlen2.trans hlen⟩

lemma read_empty_rs_none (f : Nat) (s : STMState) (a : Nat)
    (hrs : s.read_set = []) (hws : wsLookup s.write_set a = none)
    (hrv : s.rv ≠ s.global_clock) :
    tx_readFuel f s a = none := by
  unfold tx_readFuel
  rw [hws]
  cases f with
  | zero => rfl
  | succ f =>
    simp only [tx_readLoopFuel, if_pos hrv, validate_empty f s hrs]

lemma commit_ok_rv_even (f : Nat) (s t : STMState) (hrv : s.rv % 2 = 0)
    (h : tx_commitFuel f s = some (Except.ok t)) : t.rv % 2 = 0 := by
  induction f generalizing s with
  | zero => simp [tx_commitFuel] at h
  | succ f ih =>
    simp only [tx_commitFuel] at h
    by_cases he : s.write_set = []
    · rw [if_pos he] at h
      simp only [Option.some.injEq, Except.ok.injEq] at h
      rw [← h]
      exact hrv
    · rw [if_neg he] at h
      by_cases hcas : s.global_clock = s.rv
      · rw [if_pos hcas] at h
        simp only [Option.some.injEq, Except.ok.injEq] at h
        rw [← h]
        exact hrv
      · rw [if_neg hcas] at h
        cases hv : tx_validateFuel f s with
        | none => rw [hv] at h; simp at h
        | some r =>
          cases r with
          | error u => rw [hv] at h; simp at h
          | ok tt =>
            rw [hv] at h
            obtain ⟨htt, heven⟩ := validate_ok_eq f s tt hv
            exact ih { s with rv := tt } (by simpa [htt] using heven) h

/-! Claim theorems. -/

/-- C1: the claim states that a later tx_write to the same address
overwrites the earlier buffered value and that a subsequent tx_read
returns the later value.  On the code this fails: write_set.emplace never
overwrites, so after tx_write(0, 5); tx_write(0, 7) the write set still
maps 0 to 5 and tx_read(0) returns 5 with the state unchanged (no
shared-memory access, no read-set entry). -/
theorem c1_write_emplace_keeps_first_value :
    (tx_write (tx_write sC1 0 5) 0 7).write_set = [(0, 5)] ∧
      tx_readFuel 2 (tx_write (tx_write sC1 0 5) 0 7) 0 =
        some (Except.ok (5, tx_write (tx_write sC1 0 5) 0 7)) :=
  ⟨rfl, rfl⟩

/-- C2: the claim states that tx_validate returns only after scanning the
entire read set and never after comparing a proper prefix.  On the code
this fails: the return sits inside the per-entry for-loop, so in state sC2
tx_validate returns 0 after comparing only the first of the two read-set
entries, even though the second entry (address 1, recorded 7) no longer
matches the cell value 999 and a full scan would abort. -/
theorem c2_validate_returns_after_first_entry :
    tx_validateFuel 2 sC2 = some (Except.ok 0) ∧
      sC2.read_set = [⟨0, 5⟩, ⟨1, 7⟩] ∧
      (7 : Int) ≠ sC2.accts.getD 1 0 :=
  ⟨rfl, rfl, by decide⟩

/-- C3: for every sequence of committed transfer transactions, each moving
a fixed amount between two distinct in-range cells, the sum of all cell
values after the run equals the sum before it: the engine neither creates
nor destroys value. -/
theorem c3_transfer_conservation (f : Nat) (amt : Int) (ps : List (Nat × Nat))
    (s s' : STMState)
    (hv : ∀ p ∈ ps, p.1 ≠ p.2 ∧ p.1 < s.accts.length ∧ p.2 < s.accts.length)
    (h : runTransfers f amt s ps = some s') :
    s'.accts.sum = s.accts.sum :=
  (runTransfers_sum f amt ps s s' hv h).1

/-- Witness for C3: one committed transfer of 50 between the two cells of
sC3 preserves the total balance. -/
theorem c3_transfer_conservation_witness : sC3x.accts.sum = sC3.accts.sum :=
  c3_transfer_conservation 5 50 [(0, 1)] sC3 sC3x (by decide) rfl

/-- C4: when the write set is non-empty and tx_commit succeeds, every
write-set pair has been written to the cell array and the Global Clock
holds startVersion + 2, which is exactly two more than the quiescent clock
the commit started from, so the clock never decreases. -/
theorem c4_commit_advances_clock_by_two (f : Nat) (s t : STMState)
    (hne : s.write_set ≠ []) (h : tx_commitFuel f s = some (Except.ok t)) :
    t.accts = writeBack s.accts s.write_set ∧
      t.global_clock = t.rv + 2 ∧
      t.global_clock = s.global_clock + 2 ∧
      s.global_clock ≤ t.global_clock := by
  obtain ⟨ha, hr, hc, _, _⟩ := commit_ok_nonempty f s t hne h
  refine ⟨ha, by rw [hc, hr], hc, by omega⟩

/-- Witness for C4: the concrete commit from sC4 writes back its single
pair and advances the clock from 0 to 2. -/
theorem c4_commit_advances_clock_by_two_witness :
    sC4x.accts = writeBack sC4.accts sC4.write_set ∧
      sC4x.global_clock = sC4x.rv + 2 ∧
      sC4x.global_clock = sC4.global_clock + 2 ∧
      sC4.global_clock ≤ sC4x.global_clock :=
  c4_commit_advances_clock_by_two 1 sC4 sC4x (by decide) rfl

/-- C5: the claim states that tx_read always terminates with a value or
an abort.  On the code this fails: in state sDiv (empty read set, rv = 2,
global_clock = 0) the revalidation loop calls tx_validate, whose only
return statement sits inside the zero-iteration scan loop, so tx_read
runs out of any amount of fuel without returning or aborting. -/
theorem c5_read_spins_forever (f : Nat) :
    tx_readFuel f sDiv 0 = none :=
  read_empty_rs_none f sDiv 0 rfl rfl (by decide)

/-- C6: writes are all-or-nothing: tx_write and tx_read never change the
cell array, an aborting tx_read or tx_commit leaves the cell array exactly
as it was, and a successful tx_commit applies exactly the full write set. -/
theorem c6_abort_all_or_nothing (f : Nat) (s : STMState) :
    (∀ a v, (tx_write s a v).accts = s.accts) ∧
      (∀ a v t, tx_readFuel f s a = some (Except.ok (v, t)) → t.accts = s.accts) ∧
      (∀ a t, tx_readFuel f s a = some (Except.error t) → t.accts = s.accts) ∧
      (∀ t, tx_commitFuel f s = some (Except.error t) → t.accts = s.accts) ∧
      (∀ t, tx_commitFuel f s = some (Except.ok t) →
        t.accts = writeBack s.accts s.write_set) := by
  refine ⟨fun a v => rfl,
    fun a v t h => (read_ok_facts f s a v t h).1,
    fun a t h => (read_err_facts f s a t h).1,
    fun t h => (commit_err_cond f s t h).1,
    fun t h => ?_⟩
  by_cases he : s.write_set = []
  · have ht : Except.ok t = Except.ok s := commit_empty_eq f s _ he h
    rw [Except.ok.inj ht, he]
    rfl
  · exact (commit_ok_nonempty f s t he h).1

/-- Witness for C6: the aborting commit from sC6 leaves the cell array
unchanged. -/
theorem c6_abort_all_or_nothing_witness :
    tx_commitFuel 2 sC6 = some (Except.error sC6) ∧ sC6.accts = sC6.accts :=
  ⟨rfl, (c6_abort_all_or_nothing 2 sC6).2.2.2.1 sC6 rfl⟩

/-- C7: a commit with an empty write set succeeds immediately with the
state untouched: no abort, no CAS, the Global Clock and the cell array
unchanged. -/
theorem c7_commit_empty_write_set_noop (f : Nat) (s : STMState)
    (he : s.write_set = []) (hf : 0 < f) :
    tx_commitFuel f s = some (Except.ok s) := by
  cases f with
  | zero => exact absurd hf (by simp)
  | succ f => simp [tx_commitFuel, he]

/-- Witness for C7: the read-only transaction sC7 commits as a no-op. -/
theorem c7_commit_empty_write_set_noop_witness :
    sC7.write_set = [] ∧ 0 < 1 ∧ tx_commitFuel 1 sC7 = some (Except.ok sC7) :=
  ⟨rfl, by decide, c7_commit_empty_write_set_noop 1 sC7 rfl (by decide)⟩

/-- C8: the abort signal is raised exactly when validation scans a
read-set entry whose recorded value differs from the current cell value:
tx_validate aborts iff the clock is even and the first scanned entry
mismatches (it is raised before any further entry is examined), and
tx_read and tx_commit abort only under that same condition, coming from
the tx_validate call inside them; tx_begin and tx_write are total
functions that never produce the abort signal. -/
theorem c8_abort_only_on_scanned_mismatch (f : Nat) (s : STMState) (hf : 0 < f) :
    (tx_validateFuel f s = some (Except.error ()) ↔
      s.global_clock % 2 = 0 ∧
        ∃ e rest, s.read_set = e :: rest ∧ e.value ≠ s.accts.getD e.addr 0) ∧
      (∀ t, tx_commitFuel f s = some (Except.error t) →
        s.global_clock % 2 = 0 ∧
          ∃ e rest, s.read_set = e :: rest ∧ e.value ≠ s.accts.getD e.addr 0) ∧
      (∀ a t, tx_readFuel f s a = some (Except.error t) →
        s.global_clock % 2 = 0 ∧
          ∃ e rest, s.read_set = e :: rest ∧ e.value ≠ s.accts.getD e.addr 0) := by
  refine ⟨⟨fun h => validate_err_cond f s () h, fun hc => ?_⟩,
    fun t h => ⟨(commit_err_cond f s t h).2.2.1, (commit_err_cond f s t h).2.2.2⟩,
    fun a t h => ⟨(read_err_facts f s a t h).2.1, (read_err_facts f s a t h).2.2⟩⟩
  obtain ⟨heven, e, rest, hrs, hm⟩ := hc
  exact validate_err_intro f s e rest hrs heven hm hf

/-- Witness for C8: in state sC8 the head read-set entry mismatches at an
even clock, and tx_validate indeed raises the abort signal. -/
theorem c8_abort_only_on_scanned_mismatch_witness :
    tx_validateFuel 1 sC8 = some (Except.error ()) :=
  ((c8_abort_only_on_scanned_mismatch 1 sC8 (by decide)).1).mpr
    ⟨rfl, ⟨0, 5⟩, [], rfl, by decide⟩

/-- C9 counterexample: the claim says tx_read diverges whenever the read
set is empty and startVersion differs from the Global Clock, but in state
sC9 (empty read set, rv = 2, clock = 0) the address 0 sits in the write
set, so tx_read returns the buffered 7 at once and terminates. -/
theorem c9_read_terminates_on_write_set_hit :
    sC9.read_set = [] ∧ sC9.rv ≠ sC9.global_clock ∧
      tx_readFuel 1 sC9 0 = some (Except.ok (7, sC9)) :=
  ⟨rfl, by decide, rfl⟩

/-- C9 (amended): with an empty read set tx_validate never returns and
never raises the abort signal, since its only return statement sits inside
the zero-iteration scan loop; consequently tx_read diverges when called
with an empty read set, an address absent from the write set, and
startVersion different from the Global Clock. -/
theorem c9_validate_and_read_diverge (f : Nat) (s : STMState) (a : Nat)
    (hrs : s.read_set = []) (hws : wsLookup s.write_set a = none)
    (hrv : s.rv ≠ s.global_clock) :
    tx_validateFuel f s = none ∧ tx_readFuel f s a = none :=
  ⟨validate_empty f s hrs, read_empty_rs_none f s a hrs hws hrv⟩

/-- Witness for C9: in state sDiv both tx_validate and tx_read exhaust
their fuel. -/
theorem c9_validate_and_read_diverge_witness :
    tx_validateFuel 3 sDiv = none ∧ tx_readFuel 3 sDiv 0 = none :=
  c9_validate_and_read_diverge 3 sDiv 0 rfl rfl (by decide)

/-- C10: the start version rv is even whenever the spin loops are done:
tx_begin only ever installs an even clock value as rv, tx_validate only
ever returns an even value, tx_read keeps rv even, and a successful
tx_commit keeps rv even, so its CAS always attempts to move the clock
from the even rv to the odd rv + 1. -/
theorem c10_rv_even_outside_spin_loops (f : Nat) (s : STMState) :
    (∀ t, tx_beginFuel f s = some t → t.rv % 2 = 0) ∧
      (∀ n, tx_validateFuel f s = some (Except.ok n) → n % 2 = 0) ∧
      (∀ a v t, s.rv % 2 = 0 → tx_readFuel f s a = some (Except.ok (v, t)) →
        t.rv % 2 = 0) ∧
      (∀ t, s.rv % 2 = 0 → tx_commitFuel f s = some (Except.ok t) →
        t.rv % 2 = 0 ∧ (t.rv + 1) % 2 = 1) := by
  refine ⟨fun t ht => ?_, fun n hn => (validate_ok_eq f s n hn).1 ▸
      (validate_ok_eq f s n hn).2,
    fun a v t hrv h => ?_, fun t hrv h => ?_⟩
  · obtain ⟨he, heven⟩ := begin_eq f s t ht
    rw [he]
    exact heven
  · rcases (read_ok_facts f s a v t h).2.2.2.1 with hr | hr
    · rw [hr]; exact hrv
    · exact hr
  · have he := commit_ok_rv_even f s t hrv h
    exact ⟨he, by omega⟩

/-- Witness for C10: tx_begin from the quiescent state sC10 installs the
even clock value 2 as rv. -/
theorem c10_rv_even_outside_spin_loops_witness : sC10b.rv % 2 = 0 :=
  (c10_rv_even_outside_spin_loops 1 sC10).1 sC10b rfl
